import Mathlib

set_option maxRecDepth 100000
set_option linter.unusedVariables false

/-!
Verification of the CasinoBackend repository's specification against a shallow
embedding of its source code.

The embedding keeps the source's structure and names where Lean allows it:

* `crashPointFromSeeds` (src/sockets/crash.js) — the provably-fair crash-point
  derivation, including a complete executable SHA-256/HMAC-SHA256 over byte
  lists (bytes are `Nat` values < 256, exactly the buffers Node's `crypto`
  hashes).  JavaScript `BigInt` arithmetic is exact integer arithmetic, so the
  BigInt pipeline of lines 27–38 is embedded as `Nat` arithmetic; the closing
  `Number(crash100) / 100` / `Math.floor(crash * 100)` double round-trip is
  modelled exactly by an executable IEEE-754 binary64 rounding (`fl53`,
  round-to-nearest-even at 53 significand bits), because it returns one
  hundredth below the BigInt quotient for part of the range.
* `buildInitialDatas` / the `/create` route (src/routes/mine.js) — the Mines
  board construction.  `Math.random()` draws are modelled as an explicit input
  stream of already-scaled cell indices (`Math.floor(Math.random()*25)`), the
  standard shallow embedding of an impure RNG.
* `calculateMinesPayout` / `combination` (src/services/minesPayout.js) — over
  exact rationals; every intermediate of the JS float computation on the
  ranges used here is an integer or far from a floor boundary, so exact `ℚ`
  models the JS `number` arithmetic faithfully at the granularity the claims
  are stated at.
* the `/cashout`, `/claim` and `/bet` route handlers (src/routes/mine.js) —
  as functions from the request, the stored game row and the external
  transfer's outcome to a response, a final row and an ordered trace of
  database-write / transfer events.
* the Crash tick loop and `join-game` handler (src/sockets/crash.js), the
  Slide settlement loop (src/sockets/slide.js) — multipliers are represented
  in integer hundredths (the tick value `Math.floor(e^(kt)·100)/100` carries
  exactly two decimals, and `n ↦ fl(n/100)` is strictly monotone on the range
  used, so hundredths comparisons are faithful).
-/

/-! ## SHA-256 over byte lists (FIPS 180-4), as used by Node's crypto module -/

/-- 2^32, the word modulus of SHA-256. -/
def w32 : ℕ := 4294967296

/-- Right-rotation of a 32-bit word. -/
def rotr32 (n x : ℕ) : ℕ := ((x >>> n) ||| (x <<< (32 - n))) % w32

/-- Bitwise complement of a 32-bit word. -/
def not32 (x : ℕ) : ℕ := 4294967295 ^^^ x

/-- SHA-256 Ch function. -/
def shaCh (x y z : ℕ) : ℕ := (x &&& y) ^^^ (not32 x &&& z)

/-- SHA-256 Maj function. -/
def shaMaj (x y z : ℕ) : ℕ := (x &&& y) ^^^ (x &&& z) ^^^ (y &&& z)

/-- SHA-256 big sigma 0. -/
def bsig0 (x : ℕ) : ℕ := rotr32 2 x ^^^ rotr32 13 x ^^^ rotr32 22 x

/-- SHA-256 big sigma 1. -/
def bsig1 (x : ℕ) : ℕ := rotr32 6 x ^^^ rotr32 11 x ^^^ rotr32 25 x

/-- SHA-256 small sigma 0. -/
def ssig0 (x : ℕ) : ℕ := rotr32 7 x ^^^ rotr32 18 x ^^^ (x >>> 3)

/-- SHA-256 small sigma 1. -/
def ssig1 (x : ℕ) : ℕ := rotr32 17 x ^^^ rotr32 19 x ^^^ (x >>> 10)

/-- The 64 SHA-256 round constants. -/
def shaK : List ℕ := [
  1116352408, 1899447441, 3049323471, 3921009573, 961987163, 1508970993,
  2453635748, 2870763221, 3624381080, 310598401, 607225278, 1426881987,
  1925078388, 2162078206, 2614888103, 3248222580, 3835390401, 4022224774,
  264347078, 604807628, 770255983, 1249150122, 1555081692, 1996064986,
  2554220882, 2821834349, 2952996808, 3210313671, 3336571891, 3584528711,
  113926993, 338241895, 666307205, 773529912, 1294757372, 1396182291,
  1695183700, 1986661051, 2177026350, 2456956037, 2730485921, 2820302411,
  3259730800, 3345764771, 3516065817, 3600352804, 4094571909, 275423344,
  430227734, 506948616, 659060556, 883997877, 958139571, 1322822218,
  1537002063, 1747873779, 1955562222, 2024104815, 2227730452, 2361852424,
  2428436474, 2756734187, 3204031479, 3329325298]

/-- The SHA-256 initial hash value. -/
def shaH0 : List ℕ := [
  1779033703, 3144134277, 1013904242, 2773480762, 1359893119,
  2600822924, 528734635, 1541459225]

/-- Extend a 16-word block to the full 64-word message schedule (`n` = words
still to produce, 48 at the top call). -/
def shaExtend : ℕ → List ℕ → List ℕ
  | 0, ws => ws
  | n + 1, ws =>
      let t := ws.length
      let w := (ssig1 (ws.getD (t - 2) 0) + ws.getD (t - 7) 0 +
                ssig0 (ws.getD (t - 15) 0) + ws.getD (t - 16) 0) % w32
      shaExtend n (ws ++ [w])

/-- One SHA-256 round: the working state is the 8-word list [a,b,c,d,e,f,g,h]. -/
def shaRound (st : List ℕ) (kw : ℕ × ℕ) : List ℕ :=
  match st with
  | [a, b, c, d, e, f, g, h] =>
      let t1 := (h + bsig1 e + shaCh e f g + kw.1 + kw.2) % w32
      let t2 := (bsig0 a + shaMaj a b c) % w32
      [(t1 + t2) % w32, a, b, c, (d + t1) % w32, e, f, g]
  | _ => st

/-- SHA-256 compression of one 16-word block into the running 8-word state. -/
def shaCompress (h : List ℕ) (block : List ℕ) : List ℕ :=
  let ws := shaExtend 48 block
  let st := (shaK.zip ws).foldl shaRound h
  (h.zip st).map (fun p => (p.1 + p.2) % w32)

/-- Big-endian packing of bytes into 32-bit words (4 bytes per word). -/
def bytesToWords : List ℕ → List ℕ
  | b0 :: b1 :: b2 :: b3 :: rest =>
      (b0 * 0x1000000 + b1 * 0x10000 + b2 * 0x100 + b3) :: bytesToWords rest
  | _ => []

/-- Split a word list into 16-word blocks. -/
def wordsToBlocks : List ℕ → List (List ℕ)
  | w0 :: w1 :: w2 :: w3 :: w4 :: w5 :: w6 :: w7 ::
    w8 :: w9 :: w10 :: w11 :: w12 :: w13 :: w14 :: w15 :: rest =>
      [w0, w1, w2, w3, w4, w5, w6, w7, w8, w9, w10, w11, w12, w13, w14, w15] ::
        wordsToBlocks rest
  | _ => []

/-- SHA-256 padding: append 0x80, zeros, and the 64-bit big-endian bit length. -/
def shaPad (msg : List ℕ) : List ℕ :=
  let len := msg.length
  let zeros := (119 - len % 64) % 64
  let bitLen := 8 * len
  msg ++ [0x80] ++ List.replicate zeros 0 ++
    [bitLen >>> 56 % 256, bitLen >>> 48 % 256, bitLen >>> 40 % 256, bitLen >>> 32 % 256,
     bitLen >>> 24 % 256, bitLen >>> 16 % 256, bitLen >>> 8 % 256, bitLen % 256]

/-- SHA-256 of a byte list, as the 8 32-bit digest words. -/
def sha256Words (msg : List ℕ) : List ℕ :=
  (wordsToBlocks (bytesToWords (shaPad msg))).foldl shaCompress shaH0

/-- Unpack 32-bit words into big-endian bytes. -/
def wordsToBytes (ws : List ℕ) : List ℕ :=
  ws.flatMap (fun w => [w >>> 24 % 256, w >>> 16 % 256, w >>> 8 % 256, w % 256])

/-- SHA-256 digest of a byte list, as 32 bytes. -/
def sha256 (msg : List ℕ) : List ℕ := wordsToBytes (sha256Words msg)

/-- HMAC-SHA256 (RFC 2104) of a message under a key, both byte lists; this is
what `crypto.createHmac("sha256", privateSeed).update(publicSeed)` computes. -/
def hmacSha256 (key msg : List ℕ) : List ℕ :=
  let k0 := if 64 < key.length then sha256 key else key
  let kp := k0 ++ List.replicate (64 - k0.length) 0
  let ipad := kp.map (fun b => b ^^^ 0x36)
  let opad := kp.map (fun b => b ^^^ 0x5c)
  sha256 (opad ++ sha256 (ipad ++ msg))

/-! ## Crash crash-point derivation (src/sockets/crash.js, `crashPointFromSeeds`)

The JS function HMACs `publicSeed` under key `privateSeed`, takes the first 13
hex characters of the digest (the top 52 bits) as `r`, and computes, in exact
`BigInt` arithmetic, `crash100 = ((100n * E) - r) / (E - r)` with `E = 2^52`,
clamped above at `100000` (1000.00×).  It then leaves BigInt:
`crash = Number(crash100) / 100`, the `crash < 1` guard, and
`Math.floor(crash * 100) / 100`.  That double round-trip is *not* the
identity: `fl(n/100) * 100` falls just below `n` for about 4.6% of the
hundredths values in [100, 100000] (251 among them), and then the floor
returns `n - 1`.  The embedding therefore carries an exact model of binary64
round-to-nearest-even (`rne`, `fl53`) and the requantization `jsHundredths`,
validated below against the FIPS-style bracket lemmas and, at the theorems'
concrete inputs, by kernel evaluation. -/

/-- Round-half-to-even integer quotient of `a / b` — the IEEE-754 rounding of
a positive rational to an integer grid. -/
def rne (a b : ℕ) : ℕ :=
  let q := a / b
  let r := a % b
  if 2 * r < b then q
  else if b < 2 * r then q + 1
  else if q % 2 = 0 then q else q + 1

/-- Fuelled floor of log base 2 (`log2fuel fuel n` is exact for `n < 2^fuel`;
the fixed fuel of `natLog2` covers every magnitude the sources produce). -/
def log2fuel : ℕ → ℕ → ℕ
  | 0, _ => 0
  | fuel + 1, n => if n ≤ 1 then 0 else log2fuel fuel (n / 2) + 1

def natLog2 (n : ℕ) : ℕ := log2fuel 200 n

/-- Round the positive rational `a / b` to IEEE-754 binary64 precision
(53-bit significand, round to nearest, ties to even), returned as a dyadic
pair `(num, s)` of value `num / 2^s`.  Faithful on the normal, finite range
(value at least 1, below 2^147), which covers every use below. -/
def fl53 (a b : ℕ) : ℕ × ℕ :=
  let e := natLog2 (a / b)
  if e ≤ 52 then (rne (a <<< (52 - e)) b, 52 - e)
  else (rne a (b <<< (e - 52)) <<< (e - 52), 0)

/-- `Math.floor((Number(n) / 100) * 100)` in binary64: the double
requantization a hundredths value `n` goes through on its way out of
`crashPointFromSeeds` — it returns `n` or `n - 1`. -/
def jsHundredths (n : ℕ) : ℕ :=
  let d := fl53 n 100
  (fl53 (d.1 * 100) (2 ^ d.2)).1 >>> (fl53 (d.1 * 100) (2 ^ d.2)).2

/-- 2^52, the constant `E` of `crashPointFromSeeds`. -/
def crashE : ℕ := 4503599627370496

/-- The first 52 bits of the HMAC-SHA256 digest of the seed pair: the value of
`BigInt("0x" + h.slice(0, 13))` in the source (13 hex characters = the 6 top
bytes and the high nibble of the 7th). -/
def crashR (publicSeed privateSeed : List ℕ) : ℕ :=
  ((hmacSha256 privateSeed publicSeed).take 7).foldl (fun a b => a * 256 + b) 0 >>> 4

/-- The integer-hundredths multiplier the source returns for a digest prefix
`r`: the BigInt quotient `((100n * E) - r) / (E - r)` clamped above at
`100000`, then pushed through the double conversion — `crash =
Number(crash100) / 100` (`fl53 _ 100`), the `crash < 1` guard (which yields
`Math.floor(1 * 100) = 100`), and `Math.floor(crash * 100)`
(`jsHundredths`). -/
def crash100OfR (r : ℕ) : ℕ :=
  let c := min ((100 * crashE - r) / (crashE - r)) 100000
  if (fl53 c 100).1 < 2 ^ (fl53 c 100).2 then 100 else jsHundredths c

/-- `crashPointFromSeeds` of src/sockets/crash.js, as the integer-hundredths
multiplier derived from the two seeds (given as the byte lists Node hashes). -/
def crashPointFromSeeds (publicSeed privateSeed : List ℕ) : ℕ :=
  crash100OfR (crashR publicSeed privateSeed)

/-- Modelled from the spec's words for claim C1 (the refinement side): an
integer hundredths multiplier `floor((100 · 2^52 − r·100) / (2^52 − r))`,
clamped above at 1000.00× and floored below at 1.00×. -/
def specCrash100OfR (r : ℕ) : ℕ :=
  max 100 (min ((100 * crashE - r * 100) / (crashE - r)) 100000)

/-- The SHA-256 embedding reproduces the FIPS 180-4 test vector for "abc"
(a sanity anchor for the hash used throughout the fairness derivations). -/
theorem sha256_abc_vector :
    sha256 [0x61, 0x62, 0x63] =
      [0xba, 0x78, 0x16, 0xbf, 0x8f, 0x01, 0xcf, 0xea, 0x41, 0x41, 0x40, 0xde,
       0x5d, 0xae, 0x22, 0x23, 0xb0, 0x03, 0x61, 0xa3, 0x96, 0x17, 0x7a, 0x9c,
       0xb4, 0x10, 0xff, 0x61, 0xf2, 0x00, 0x15, 0xad] := by
  decide

/-- Every byte emitted by the SHA-256 embedding is below 256. -/
theorem sha256_bytes_lt (msg : List ℕ) : ∀ b ∈ sha256 msg, b < 256 := by
  intro b hb
  simp only [sha256, wordsToBytes, List.mem_flatMap] at hb
  obtain ⟨w, -, hw⟩ := hb
  simp only [List.mem_cons, List.not_mem_nil, or_false] at hw
  rcases hw with h | h | h | h <;> subst h <;> exact Nat.mod_lt _ (by norm_num)

/-- Accumulating bytes below 256 in base 256 stays below the matching power. -/
theorem foldl_base256_lt (l : List ℕ) (hl : ∀ b ∈ l, b < 256) (a n : ℕ)
    (ha : a < 256 ^ n) :
    l.foldl (fun a b => a * 256 + b) a < 256 ^ (n + l.length) := by
  induction l generalizing a n with
  | nil => simp only [List.foldl_nil, List.length_nil, Nat.add_zero]; exact ha
  | cons b t ih =>
      simp only [List.foldl_cons, List.length_cons]
      have hb : b < 256 := hl b (List.mem_cons_self _ _)
      have hstep : a * 256 + b < 256 ^ (n + 1) := by
        have : a + 1 ≤ 256 ^ n := ha
        calc a * 256 + b < (a + 1) * 256 := by omega
          _ ≤ 256 ^ n * 256 := by
              exact Nat.mul_le_mul_right _ this
          _ = 256 ^ (n + 1) := by ring
      have := ih (fun x hx => hl x (List.mem_cons_of_mem _ hx)) (a * 256 + b)
        (n + 1) hstep
      calc t.foldl (fun a b => a * 256 + b) (a * 256 + b) < 256 ^ (n + 1 + t.length) := this
        _ = 256 ^ (n + (t.length + 1)) := by ring_nf

/-- The 52-bit value extracted from the digest is below 2^52. -/
theorem crashR_lt (pub priv : List ℕ) : crashR pub priv < crashE := by
  unfold crashR
  set d := hmacSha256 priv pub with hd
  have hbytes : ∀ b ∈ d.take 7, b < 256 := by
    intro b hb
    exact sha256_bytes_lt _ b (List.mem_of_mem_take hb)
  have hlen : (d.take 7).length ≤ 7 := by
    simp
  have hfold : (d.take 7).foldl (fun a b => a * 256 + b) 0 < 256 ^ 7 := by
    have h0 : (0 : ℕ) < 256 ^ 0 := by norm_num
    have := foldl_base256_lt (d.take 7) hbytes 0 0 h0
    calc (d.take 7).foldl (fun a b => a * 256 + b) 0 < 256 ^ (0 + (d.take 7).length) := this
      _ ≤ 256 ^ 7 := Nat.pow_le_pow_right (by norm_num) (by omega)
  rw [Nat.shiftRight_eq_div_pow]
  have : 256 ^ 7 = crashE * 2 ^ 4 := by unfold crashE; norm_num
  rw [Nat.div_lt_iff_lt_mul (by norm_num : 0 < 2 ^ 4)]
  omega

/-- The spec's formula for claim C1 is degenerate: its numerator
`100·2^52 − r·100` is exactly `100·(2^52 − r)`, so the quotient is the
constant 100 (1.00×) for every value of `r`. -/
theorem specCrash100OfR_eq_100 (r : ℕ) : specCrash100OfR r = 100 := by
  unfold specCrash100OfR crashE
  rcases Nat.lt_or_ge r 4503599627370496 with h | h
  · have h1 : 100 * 4503599627370496 - r * 100 = (4503599627370496 - r) * 100 := by
      omega
    rw [h1, Nat.mul_div_cancel_left _ (by omega : 0 < 4503599627370496 - r)]
    · norm_num
  · have h1 : 100 * 4503599627370496 - r * 100 = 0 := by omega
    rw [h1]
    norm_num

/-- Claim C1 (counterexample): for the concrete seed pair
`publicSeed = "b"`, `privateSeed = "a"` (byte lists [0x62] and [0x61]), the
code's derivation returns 103 (1.03×), while the claim's formula
`floor((100·2^52 − r·100)/(2^52 − r))` yields 100 (1.00×) on the digest's
first 52 bits — so the derivation does not return the claimed value. -/
theorem crashPoint_claim_counterexample :
    crashPointFromSeeds [0x62] [0x61] = 103 ∧
      specCrash100OfR (crashR [0x62] [0x61]) = 100 ∧ (103 : ℕ) ≠ 100 := by
  refine ⟨by decide, specCrash100OfR_eq_100 _, by decide⟩

/-- Two-sided error of round-half-even: `b · rne a b` is within `b/2` of
`a`, stated without halves: `|2·b·rne(a,b) − 2a| ≤ b`. -/
theorem rne_bounds (a b : ℕ) (hb : 0 < b) :
    2 * a ≤ 2 * (b * rne a b) + b ∧ 2 * (b * rne a b) ≤ 2 * a + b := by
  have hdm : b * (a / b) + a % b = a := Nat.div_add_mod a b
  have hr : a % b < b := Nat.mod_lt _ hb
  simp only [rne]
  split_ifs with h1 h2 h3 <;>
    · constructor <;> (ring_nf; ring_nf at hdm; omega)

/-- The fuelled log base 2 brackets its argument: `2^log ≤ n < 2^(log+1)`. -/
theorem log2fuel_bracket : ∀ fuel n, 1 ≤ n → n < 2 ^ fuel →
    2 ^ log2fuel fuel n ≤ n ∧ n < 2 ^ (log2fuel fuel n + 1)
  | 0, n, h1, h2 => by simp at h2; omega
  | fuel + 1, n, h1, h2 => by
      unfold log2fuel
      by_cases hn : n ≤ 1
      · rw [if_pos hn]
        constructor
        · simpa using h1
        · have : (2:ℕ) ^ (0 + 1) = 2 := by norm_num
          omega
      · rw [if_neg hn]
        have h1a : 1 ≤ n / 2 := by omega
        have h2a : n / 2 < 2 ^ fuel := by
          have hp : (2:ℕ) ^ (fuel + 1) = 2 ^ fuel * 2 := pow_succ 2 fuel
          omega
        obtain ⟨ih1, ih2⟩ := log2fuel_bracket fuel (n / 2) h1a h2a
        constructor
        · have hp : (2:ℕ) ^ (log2fuel fuel (n / 2) + 1) =
              2 ^ log2fuel fuel (n / 2) * 2 := pow_succ 2 _
          omega
        · have hp : (2:ℕ) ^ (log2fuel fuel (n / 2) + 1 + 1) =
              2 ^ (log2fuel fuel (n / 2) + 1) * 2 := pow_succ 2 _
          omega

/-- `natLog2` brackets its argument over the fuelled range. -/
theorem natLog2_bracket (n : ℕ) (h1 : 1 ≤ n) (h2 : n < 2 ^ 200) :
    2 ^ natLog2 n ≤ n ∧ n < 2 ^ (natLog2 n + 1) :=
  log2fuel_bracket 200 n h1 h2

/-- Binary64 rounding specification of `fl53`: for a value `a/b` in
[1, 2^53), the dyadic result `m / 2^s` is within half an output-grid step of
`a/b` (`|b·m − a·2^s| ≤ b/2`), is at least 1 (`2^s ≤ m`), and the scale is
`s = 52 − ⌊log2(a/b)⌋`. -/
theorem fl53_spec (a b : ℕ) (hb : 0 < b) (hab : b ≤ a) (hsz : a < b * 2 ^ 53) :
    2 * (a * 2 ^ (fl53 a b).2) ≤ 2 * (b * (fl53 a b).1) + b ∧
    2 * (b * (fl53 a b).1) ≤ 2 * (a * 2 ^ (fl53 a b).2) + b ∧
    2 ^ (fl53 a b).2 ≤ (fl53 a b).1 ∧
    (fl53 a b).2 = 52 - natLog2 (a / b) := by
  have hd1 : 1 ≤ a / b := (Nat.one_le_div_iff hb).mpr hab
  have hdlt : a / b < 2 ^ 53 := by
    rw [Nat.div_lt_iff_lt_mul hb]
    calc a < b * 2 ^ 53 := hsz
      _ = 2 ^ 53 * b := Nat.mul_comm _ _
  obtain ⟨hbr1, hbr2⟩ := natLog2_bracket (a / b) hd1 (lt_trans hdlt (by norm_num))
  have he : natLog2 (a / b) ≤ 52 := by
    by_contra hcon
    push_neg at hcon
    have : (2:ℕ) ^ 53 ≤ 2 ^ natLog2 (a / b) := Nat.pow_le_pow_right (by norm_num) hcon
    omega
  have hfl : fl53 a b =
      (rne (a <<< (52 - natLog2 (a / b))) b, 52 - natLog2 (a / b)) := by
    simp only [fl53]
    rw [if_pos he]
  rw [hfl]
  dsimp only
  rw [Nat.shiftLeft_eq]
  obtain ⟨hrb1, hrb2⟩ := rne_bounds (a * 2 ^ (52 - natLog2 (a / b))) b hb
  refine ⟨hrb1, hrb2, ?_, rfl⟩
  have hae : b * 2 ^ natLog2 (a / b) ≤ a := by
    calc b * 2 ^ natLog2 (a / b) ≤ b * (a / b) := Nat.mul_le_mul_left b hbr1
      _ = (a / b) * b := Nat.mul_comm _ _
      _ ≤ a := Nat.div_mul_le_self a b
  have hpow : (2:ℕ) ^ natLog2 (a / b) * 2 ^ (52 - natLog2 (a / b)) = 2 ^ 52 := by
    rw [← pow_add]
    congr 1
    omega
  have ha52 : b * 2 ^ 52 ≤ a * 2 ^ (52 - natLog2 (a / b)) := by
    calc b * 2 ^ 52 = b * (2 ^ natLog2 (a / b) * 2 ^ (52 - natLog2 (a / b))) := by
          rw [hpow]
      _ = b * 2 ^ natLog2 (a / b) * 2 ^ (52 - natLog2 (a / b)) := by ring
      _ ≤ a * 2 ^ (52 - natLog2 (a / b)) := Nat.mul_le_mul_right _ hae
  have hm52 : 2 ^ 52 ≤ rne (a * 2 ^ (52 - natLog2 (a / b))) b := by
    by_contra hcon
    push_neg at hcon
    have h2 : b * (rne (a * 2 ^ (52 - natLog2 (a / b))) b + 1) ≤ b * 2 ^ 52 :=
      Nat.mul_le_mul_left b hcon
    ring_nf at h2 hrb1 ha52
    omega
  calc (2:ℕ) ^ (52 - natLog2 (a / b)) ≤ 2 ^ 52 :=
        Nat.pow_le_pow_right (by norm_num) (by omega)
    _ ≤ rne (a * 2 ^ (52 - natLog2 (a / b))) b := hm52

/-- Abstract arithmetic core of the requantization bounds: if `m1` is the
half-step rounding of `c·S/100` (scaled by `S`) and `m2` the half-step
rounding of `100·m1·T/S` (scaled by `T`), then `m2/T` is `c` or `c − 1`. -/
theorem requant_bounds (c m1 S m2 T : ℕ) (hS0 : 0 < S) (hT0 : 0 < T)
    (h100S : 100 < S)
    (s1a : 2 * (c * S) ≤ 2 * (100 * m1) + 100)
    (s1b : 2 * (100 * m1) ≤ 2 * (c * S) + 100)
    (t1 : 2 * ((m1 * 100) * T) ≤ 2 * (S * m2) + S)
    (t2 : 2 * (S * m2) ≤ 2 * ((m1 * 100) * T) + S) :
    c - 1 ≤ m2 / T ∧ m2 / T ≤ c := by
  have k3a : 100 * T < S * T := mul_lt_mul_of_pos_right h100S hT0
  have k3b : S ≤ S * T := Nat.le_mul_of_pos_right S hT0
  constructor
  · have l1 : (2 * (c * S)) * T ≤ (2 * (100 * m1) + 100) * T :=
      Nat.mul_le_mul_right T s1a
    have l2 : 2 * (c * S * T) ≤ 2 * (S * m2) + S + 100 * T := by
      have e1 : (2 * (c * S)) * T = 2 * (c * S * T) := by ring
      have e2 : (2 * (100 * m1) + 100) * T = 2 * ((m1 * 100) * T) + 100 * T := by
        ring
      omega
    rcases Nat.eq_zero_or_pos c with hc0 | hc0
    · simp [hc0]
    · have l3 : 2 * (S * ((c - 1) * T)) + 2 * (S * T) = 2 * (c * S * T) := by
        obtain ⟨n, rfl⟩ : ∃ n, c = n + 1 := ⟨c - 1, by omega⟩
        simp only [Nat.add_sub_cancel]
        ring
      have l4 : S * ((c - 1) * T) ≤ S * m2 := by omega
      have l5 : (c - 1) * T ≤ m2 := Nat.le_of_mul_le_mul_left l4 hS0
      exact (Nat.le_div_iff_mul_le hT0).mpr l5
  · have u1 : (2 * (100 * m1)) * T ≤ (2 * (c * S) + 100) * T :=
      Nat.mul_le_mul_right T s1b
    have u2 : 2 * (S * m2) ≤ 2 * (c * S * T) + 100 * T + S := by
      have e1 : (2 * (100 * m1)) * T = 2 * ((m1 * 100) * T) := by ring
      have e2 : (2 * (c * S) + 100) * T = 2 * (c * S * T) + 100 * T := by ring
      omega
    have u3 : S * m2 < S * ((c + 1) * T) := by
      have e3 : 2 * (S * ((c + 1) * T)) = 2 * (c * S * T) + 2 * (S * T) := by ring
      omega
    have u4 : m2 < (c + 1) * T := Nat.lt_of_mul_lt_mul_left u3
    have u5 : m2 / T < c + 1 := (Nat.div_lt_iff_lt_mul hT0).mpr u4
    omega

/-- The double requantization of a hundredths value in [100, 100000] returns
the value itself or one hundredth less, never anything else. -/
theorem jsHundredths_bounds (c : ℕ) (hc1 : 100 ≤ c) (hc2 : c ≤ 100000) :
    c - 1 ≤ jsHundredths c ∧ jsHundredths c ≤ c := by
  have hsz1 : c < 100 * 2 ^ 53 := by
    calc c ≤ 100000 := hc2
      _ < 100 * 2 ^ 53 := by norm_num
  obtain ⟨s1a, s1b, s1c, s1d⟩ := fl53_spec c 100 (by norm_num) hc1 hsz1
  have hd1 : 1 ≤ c / 100 := (Nat.one_le_div_iff (by norm_num)).mpr hc1
  obtain ⟨hb1, hb2⟩ := natLog2_bracket (c / 100) hd1 (by omega)
  have he1 : natLog2 (c / 100) ≤ 9 := by
    by_contra hcon
    push_neg at hcon
    have : (2:ℕ) ^ 10 ≤ 2 ^ natLog2 (c / 100) :=
      Nat.pow_le_pow_right (by norm_num) hcon
    omega
  have h100S : 100 < 2 ^ (fl53 c 100).2 := by
    calc (100:ℕ) < 2 ^ 7 := by norm_num
      _ ≤ 2 ^ (fl53 c 100).2 := Nat.pow_le_pow_right (by norm_num) (by omega)
  have hS0 : 0 < 2 ^ (fl53 c 100).2 := pow_pos (by norm_num) _
  have hab2 : 2 ^ (fl53 c 100).2 ≤ (fl53 c 100).1 * 100 := by
    calc 2 ^ (fl53 c 100).2 ≤ (fl53 c 100).1 := s1c
      _ ≤ (fl53 c 100).1 * 100 := Nat.le_mul_of_pos_right _ (by norm_num)
  have hsz2 : (fl53 c 100).1 * 100 < 2 ^ (fl53 c 100).2 * 2 ^ 53 := by
    have h2 : c * 2 ^ (fl53 c 100).2 + 50 * 2 ^ (fl53 c 100).2 =
        (c + 50) * 2 ^ (fl53 c 100).2 := by ring
    have h3 : (c + 50) * 2 ^ (fl53 c 100).2 ≤ 100050 * 2 ^ (fl53 c 100).2 :=
      Nat.mul_le_mul_right _ (by omega)
    have h4 : (100050:ℕ) * 2 ^ (fl53 c 100).2 < 2 ^ 53 * 2 ^ (fl53 c 100).2 :=
      mul_lt_mul_of_pos_right (by norm_num) hS0
    omega
  obtain ⟨t1, t2, t3, t4⟩ :=
    fl53_spec ((fl53 c 100).1 * 100) (2 ^ (fl53 c 100).2) hS0 hab2 hsz2
  have hT0 : 0 < 2 ^ (fl53 ((fl53 c 100).1 * 100) (2 ^ (fl53 c 100).2)).2 :=
    pow_pos (by norm_num) _
  have hjs : jsHundredths c =
      (fl53 ((fl53 c 100).1 * 100) (2 ^ (fl53 c 100).2)).1 /
        2 ^ (fl53 ((fl53 c 100).1 * 100) (2 ^ (fl53 c 100).2)).2 := by
    simp only [jsHundredths]
    rw [Nat.shiftRight_eq_div_pow]
  rw [hjs]
  exact requant_bounds c (fl53 c 100).1 (2 ^ (fl53 c 100).2)
    (fl53 ((fl53 c 100).1 * 100) (2 ^ (fl53 c 100).2)).1
    (2 ^ (fl53 ((fl53 c 100).1 * 100) (2 ^ (fl53 c 100).2)).2)
    hS0 hT0 h100S s1a s1b t1 t2

/-- The requantization at the two anchor points of the claims: 103 survives
unchanged, 251 drops to 250 (the code then reports 2.50 for a BigInt
quotient of 251). -/
theorem jsHundredths_anchor : jsHundredths 103 = 103 ∧ jsHundredths 251 = 250 := by
  constructor <;> decide

/-- Claim C1 (amended): for every seed pair, the derivation reads the
digest's first 52 bits as `r < 2^52`, forms the BigInt quotient
`q = floor((100·2^52 − r)/(2^52 − r))` — the numerator subtracts `r`, not
`r·100` — clamps it above at 1000.00×, and returns `q` re-quantized through
the binary64 round-trip `Math.floor((Number(q)/100)·100)`, which yields `q`
or `q − 1` hundredths and nothing else; the quotient is always at least
100, so the code's 1.00× guard never fires and the result stays at or above
1.00×. -/
theorem crashPoint_amended (pub priv : List ℕ) :
    crashR pub priv < crashE ∧
    100 ≤ min ((100 * crashE - crashR pub priv) / (crashE - crashR pub priv)) 100000 ∧
    crashPointFromSeeds pub priv =
      jsHundredths
        (min ((100 * crashE - crashR pub priv) / (crashE - crashR pub priv)) 100000) ∧
    min ((100 * crashE - crashR pub priv) / (crashE - crashR pub priv)) 100000 - 1 ≤
      crashPointFromSeeds pub priv ∧
    crashPointFromSeeds pub priv ≤
      min ((100 * crashE - crashR pub priv) / (crashE - crashR pub priv)) 100000 ∧
    100 ≤ crashPointFromSeeds pub priv := by
  have hr := crashR_lt pub priv
  set r := crashR pub priv with hrdef
  have hpos : 0 < crashE - r := by omega
  have hq100 : 100 ≤ (100 * crashE - r) / (crashE - r) := by
    rw [Nat.le_div_iff_mul_le hpos]
    have : r ≤ 100 * r := by omega
    omega
  set q := min ((100 * crashE - r) / (crashE - r)) 100000 with hqdef
  have hq1 : 100 ≤ q := le_min hq100 (by norm_num)
  have hq2 : q ≤ 100000 := min_le_right _ _
  obtain ⟨hlow, hup⟩ := jsHundredths_bounds q hq1 hq2
  obtain ⟨-, -, s1c, -⟩ := fl53_spec q 100 (by norm_num) hq1
    (by calc q ≤ 100000 := hq2
          _ < 100 * 2 ^ 53 := by norm_num)
  have hguard : ¬ (fl53 q 100).1 < 2 ^ (fl53 q 100).2 := not_lt.mpr s1c
  have hrun : crashPointFromSeeds pub priv = jsHundredths q := by
    simp only [crashPointFromSeeds, crash100OfR]
    rw [← hrdef, ← hqdef, if_neg hguard]
  have h100 : 100 ≤ jsHundredths q := by
    rcases Nat.eq_or_lt_of_le hq1 with h | h
    · rw [← h]
      decide
    · omega
  refine ⟨hr, hq1, hrun, ?_, ?_, ?_⟩ <;> rw [hrun]
  · exact hlow
  · exact hup
  · exact h100

/-! ## Mines board construction (src/routes/mine.js, `buildInitialDatas` and
the `/create` route)

The route draws `publicSeed`, `privateSeed` with `crypto.randomBytes`, stores
them (with `privateSeedHash`) on the created row, and lays out the mines with
`Math.floor(Math.random() * 25)` draws in a collect-distinct loop.  The
`Math.random()` stream is an explicit input here: `rng` is the list of
already-scaled draws (each in 0..24).  The loop `while (minePositions.length
< mines)` runs until enough distinct positions are collected; the embedding
consumes the supplied stream and stops when it is exhausted, which models any
finite execution of the loop. -/

/-- A board cell: `{ point, mine: 'BOMB' | 'GEM', mined }` of the source
(the transient `mine: null` of the pre-assignment template never escapes
`buildInitialDatas` and is not represented). -/
inductive MineKind
  | BOMB
  | GEM
deriving DecidableEq, Repr

structure Cell where
  point : ℕ
  mine : MineKind
  mined : Bool
deriving DecidableEq, Repr

/-- The collect-distinct loop of `buildInitialDatas`: keep drawing while
fewer than `mines` positions are collected, skipping duplicates. -/
def pickMineLoop (mines : ℕ) : List ℕ → List ℕ → List ℕ
  | [], acc => acc
  | p :: rest, acc =>
      if acc.length < mines then
        if p ∈ acc then pickMineLoop mines rest acc
        else pickMineLoop mines rest (acc ++ [p])
      else acc

/-- The mine positions selected from the `Math.random()` draw stream. -/
def minePositions (mines : ℕ) (rng : List ℕ) : List ℕ :=
  pickMineLoop mines rng []

/-- `buildInitialDatas` of src/routes/mine.js: 25 cells, the drawn positions
become BOMB, the rest GEM, nothing revealed.  Note the seeds are not inputs:
the source derives the layout exclusively from `Math.random()`. -/
def buildInitialDatas (mines : ℕ) (rng : List ℕ) : List Cell :=
  (List.range 25).map (fun i =>
    ⟨i, if i ∈ minePositions mines rng then .BOMB else .GEM, false⟩)

/-- Session status strings of the mine_games table. -/
inductive MStatus
  | LIVE
  | ENDED
  | EXPIRED
deriving DecidableEq, Repr

/-- Payout status strings of the mine_games table. -/
inductive PayStatus
  | NONE
  | PENDING
  | SENT
  | FAILED
deriving DecidableEq, Repr

/-- A mine_games row as the route handlers see it (the `findOne` mapping of
src/models/Game.js: `payoutAmount`/`payoutTxId`/`payoutError` are null-or-value,
`payoutStatus` defaults to NONE). -/
structure MineGameRow where
  publicKey : String
  status : MStatus
  mines : ℕ
  amount : ℕ
  datas : List Cell
  publicSeed : String
  privateSeed : String
  payoutAmount : Option ℤ
  payoutTxId : Option String
  payoutStatus : PayStatus
  payoutError : Option String
deriving DecidableEq, Repr

/-- The `/create` route's row construction: seeds and layout are produced
independently — the datas come from `buildInitialDatas` (hence from the
`Math.random()` stream `rng`), the seeds from `crypto.randomBytes`. -/
def createMineGame (publicKey : String) (mines amount : ℕ)
    (publicSeed privateSeed : String) (rng : List ℕ) : MineGameRow :=
  { publicKey := publicKey
    status := .LIVE
    mines := mines
    amount := amount
    datas := buildInitialDatas mines rng
    publicSeed := publicSeed
    privateSeed := privateSeed
    payoutAmount := none
    payoutTxId := none
    payoutStatus := .NONE
    payoutError := none }

/-- Claim C2 (divergence at a concrete input): two `/create` executions with
the *identical* seed pair but different `Math.random()` draws (first draw 0
vs first draw 1, `mines = 1`) produce different mine layouts — the layout is
a function of the RNG stream, not of `publicSeed`/`privateSeed`, so no
verifier can reproduce it from the seeds. -/
theorem mineLayout_ignores_seeds :
    (createMineGame "W" 1 100 "PUB" "PRIV" [0]).publicSeed =
        (createMineGame "W" 1 100 "PUB" "PRIV" [1]).publicSeed ∧
      (createMineGame "W" 1 100 "PUB" "PRIV" [0]).privateSeed =
        (createMineGame "W" 1 100 "PUB" "PRIV" [1]).privateSeed ∧
      (createMineGame "W" 1 100 "PUB" "PRIV" [0]).datas ≠
        (createMineGame "W" 1 100 "PUB" "PRIV" [1]).datas := by
  refine ⟨rfl, rfl, ?_⟩
  decide

/-! ## Mines payout calculator (src/services/minesPayout.js)

Embedded over exact rationals: on the call ranges (n ≤ 25) every intermediate
of the JS `combination` loop is an integer below 2^53, and the final
`Math.floor(betAmount * multiplier)` for the claims' inputs sits far from a
floor boundary relative to double rounding error, so exact `ℚ` arithmetic
models the JS number semantics at the claims' granularity. -/

/-- Default house edge: `Number(process.env.HOUSE_EDGE ?? 0.025)` at its
default (no environment override). -/
def HOUSE_EDGE : ℚ := 1 / 40

/-- The `combination` loop after `i` iterations (`k2` is the symmetrized
`k = Math.min(k, n - k)`): `result = (result * (n - (k - i))) / i`. -/
def combLoop (n k2 : ℕ) : ℕ → ℚ
  | 0 => 1
  | i + 1 => combLoop n k2 i * ((n : ℚ) - ((k2 : ℚ) - ((i : ℚ) + 1))) / ((i : ℚ) + 1)

/-- `combination(n, k)` of src/services/minesPayout.js (inputs are naturals
at every call site, so the `k < 0` guard is vacuous). -/
def combination (n k : ℕ) : ℚ :=
  if n < k then 0
  else if k = 0 ∨ k = n then 1
  else combLoop n (min k (n - k)) (min k (n - k))

/-- Result record of `calculateMinesPayout`. -/
structure MinesPayoutResult where
  payoutAmount : ℤ
  multiplier : ℚ
  trueMultiplier : ℚ
  houseEdge : ℚ
deriving DecidableEq, Repr

/-- `calculateMinesPayout` of src/services/minesPayout.js. -/
def calculateMinesPayout (mines revealedGems betAmount : ℕ) : MinesPayoutResult :=
  if revealedGems < 1 then ⟨0, 0, 0, HOUSE_EDGE⟩
  else
    let totalComb := combination 25 revealedGems
    let safeComb := combination (25 - mines) revealedGems
    let trueMultiplier := totalComb / safeComb
    let multiplier := trueMultiplier * (1 - HOUSE_EDGE)
    ⟨⌊(betAmount : ℚ) * multiplier⌋, multiplier, trueMultiplier, HOUSE_EDGE⟩

/-- Claim C7 (counterexample): at `mines = 3`, `revealedGems = 5`,
`betAmount = 1000` the code pays 1967, not the claimed 1966 — the claim's
own constants give `1000 · (53130/26334) · 0.975 = 1967.105…`, whose floor
is 1967. -/
theorem minesPayout_scenario_counterexample :
    (calculateMinesPayout 3 5 1000).payoutAmount = 1967 ∧
      (1967 : ℤ) ≠ 1966 := by
  refine ⟨?_, by decide⟩
  norm_num [calculateMinesPayout, combination, combLoop, HOUSE_EDGE]

/-- Claim C7 (amended): the payout of the `mines = 3`, `stake = 1000`,
5-revealed-gems scenario under the default house edge 0.025 is
`floor(1000 · C(25,5)/C(22,5) · 0.975) = 1967`, with `C(25,5) = 53130`,
`C(22,5) = 26334` and multiplier `53130/26334 · 39/40` exactly as claimed. -/
theorem minesPayout_scenario_amended :
    combination 25 5 = 53130 ∧ combination 22 5 = 26334 ∧
      (calculateMinesPayout 3 5 1000).trueMultiplier = 53130 / 26334 ∧
      (calculateMinesPayout 3 5 1000).multiplier = 53130 / 26334 * (1 - 1 / 40) ∧
      (calculateMinesPayout 3 5 1000).payoutAmount = 1967 := by
  refine ⟨?_, ?_, ?_, ?_, ?_⟩ <;>
    norm_num [calculateMinesPayout, combination, combLoop, HOUSE_EDGE]

/-- The `combination` loop computes binomial coefficients: after `i` of the
`k2` iterations its value is `C(n - k2 + i, i)` (each division in the loop is
exact, which is why the JS float loop is integer-valued). -/
theorem combLoop_eq_choose (n k2 : ℕ) (hk2 : k2 ≤ n) :
    ∀ i, i ≤ k2 → combLoop n k2 i = ((n - k2 + i).choose i : ℚ) := by
  intro i
  induction i with
  | zero => intro _; simp [combLoop]
  | succ i ih =>
      intro hi
      have hii : i ≤ k2 := Nat.le_of_succ_le hi
      have hm : ((n - k2 + i : ℕ) : ℚ) + 1 = (n : ℚ) - ((k2 : ℚ) - ((i : ℚ) + 1)) := by
        have : ((n - k2 : ℕ) : ℚ) = (n : ℚ) - (k2 : ℚ) := by
          push_cast [hk2]
          ring
        push_cast [this]
        ring
      have hrec := Nat.succ_mul_choose_eq (n - k2 + i) i
      have hcast : ((n - k2 + i : ℕ) : ℚ) + 1 ≠ 0 := by positivity
      have hden : ((i : ℚ) + 1) ≠ 0 := by positivity
      rw [combLoop, ih hii, ← hm]
      rw [div_eq_iff hden]
      have hassoc : n - k2 + (i + 1) = n - k2 + i + 1 := by omega
      rw [hassoc]
      have hnat : (n - k2 + i).choose i * (n - k2 + i + 1) =
          (n - k2 + i + 1).choose (i + 1) * (i + 1) := by
        simp only [Nat.succ_eq_add_one] at hrec
        rw [Nat.mul_comm]
        exact hrec
      exact_mod_cast hnat

/-- `combination` agrees with the binomial coefficient on its call range. -/
theorem combination_eq_choose (n k : ℕ) (hk : k ≤ n) :
    combination n k = (n.choose k : ℚ) := by
  unfold combination
  rcases Nat.eq_or_lt_of_le hk with heq | hlt
  · subst heq
    simp [Nat.choose_self]
  · have hnk : ¬ n < k := Nat.not_lt.mpr hk
    rcases Nat.eq_zero_or_pos k with h0 | hpos
    · subst h0
      simp
    · have hne0 : k ≠ 0 := Nat.pos_iff_ne_zero.mp hpos
      have hnen : k ≠ n := Nat.ne_of_lt hlt
      have hk2 : min k (n - k) ≤ n := le_trans (Nat.min_le_left _ _) hk
      rw [if_neg hnk, if_neg (by tauto)]
      rw [combLoop_eq_choose n _ hk2 _ (le_refl _)]
      have hsum : n - min k (n - k) + min k (n - k) = n :=
        Nat.sub_add_cancel hk2
      rw [hsum]
      rcases Nat.le_total k (n - k) with hle | hle
      · rw [Nat.min_eq_left hle]
      · rw [Nat.min_eq_right hle, Nat.choose_symm hk]

/-- With at least one revealed gem (and a well-formed session: `1 ≤ mines ≤
24`, `revealedGems ≤ 25 - mines`, positive stake) the computed payout is at
least 1 — the multiplier `C(25,g)/C(25-m,g) · 39/40` always exceeds 1. -/
theorem minesPayout_pos (m g bet : ℕ) (hm1 : 1 ≤ m) (hm24 : m ≤ 24)
    (hg1 : 1 ≤ g) (hg : g ≤ 25 - m) (hbet : 1 ≤ bet) :
    1 ≤ (calculateMinesPayout m g bet).payoutAmount := by
  have hg25 : g ≤ 25 := le_trans hg (by omega)
  have hb : 0 < (25 - m).choose g := Nat.choose_pos hg
  have hcb : (25 - m).choose g ≤ Nat.choose 24 g :=
    Nat.choose_le_choose g (by omega)
  have hkey : 40 * (25 - m).choose g ≤ 39 * Nat.choose 25 g := by
    have hid := Nat.choose_mul_succ_eq 24 g
    have h25 : (24 : ℕ) + 1 = 25 := rfl
    rw [h25] at hid
    have hga : Nat.choose 25 g * (25 - g) = Nat.choose 24 g * 25 := hid.symm
    have h24 : 25 - g ≤ 24 := by omega
    have ha25 : 25 * (25 - m).choose g ≤ Nat.choose 25 g * (25 - g) := by
      rw [hga]
      calc 25 * (25 - m).choose g ≤ 25 * Nat.choose 24 g := by
            exact Nat.mul_le_mul_left _ hcb
        _ = Nat.choose 24 g * 25 := Nat.mul_comm _ _
    have h24a : Nat.choose 25 g * (25 - g) ≤ 24 * Nat.choose 25 g := by
      calc Nat.choose 25 g * (25 - g) ≤ Nat.choose 25 g * 24 :=
            Nat.mul_le_mul_left _ h24
        _ = 24 * Nat.choose 25 g := Nat.mul_comm _ _
    omega
  have hglt : ¬ g < 1 := by omega
  unfold calculateMinesPayout
  rw [if_neg hglt]
  have hcomb1 : combination 25 g = (Nat.choose 25 g : ℚ) :=
    combination_eq_choose 25 g hg25
  have hcomb2 : combination (25 - m) g = ((25 - m).choose g : ℚ) :=
    combination_eq_choose (25 - m) g hg
  simp only [hcomb1, hcomb2, HOUSE_EDGE]
  have hbq : (0 : ℚ) < ((25 - m).choose g : ℚ) := by exact_mod_cast hb
  have hmult : (1 : ℚ) ≤ (Nat.choose 25 g : ℚ) / ((25 - m).choose g : ℚ) * (1 - 1 / 40) := by
    have h3940 : (1 : ℚ) - 1 / 40 = 39 / 40 := by norm_num
    rw [h3940, div_mul_div_comm, le_div_iff₀ (by positivity)]
    have : ((25 - m).choose g : ℚ) * 40 ≤ (Nat.choose 25 g : ℚ) * 39 := by
      exact_mod_cast by omega
    linarith
  have hbetq : (1 : ℚ) ≤ (bet : ℚ) := by exact_mod_cast hbet
  rw [Int.le_floor]
  push_cast
  calc (1 : ℚ) = 1 * 1 := by ring
    _ ≤ (bet : ℚ) * ((Nat.choose 25 g : ℚ) / ((25 - m).choose g : ℚ) * (1 - 1 / 40)) := by
        exact mul_le_mul hbetq hmult (by norm_num) (by positivity)

/-! ## Mines route handlers (src/routes/mine.js)

Each handler is embedded as a function of the (already-normalized) requester
identity, the row the database lookup returned (`none` when no row matched),
and — where a transfer is dispatched — the external transfer's outcome
(`Except errorMessage txId`, the two ways `payFromCasinoToUser` can settle).
The result carries the HTTP response essentials, the post-state of the row,
and the ordered trace of effects: `update u` is a
`MineGame.findByIdAndUpdate` call, `transfer to amt` an invocation of the
external transfer service. -/

/-- `isValidQubicPublicId` of src/utils/validation.js: exactly 60 uppercase
A–Z characters (inputs here are pre-normalized, matching
`normalizeQubicPublicId` being applied first in every handler). -/
def isValidQubicPublicId (s : String) : Bool :=
  s.length == 60 && s.data.all (fun c => 'A' ≤ c && c ≤ 'Z')

/-- `datas.filter(d => d.mined && d.mine === 'GEM').length` of the cashout
handlers. -/
def countRevealedGems (datas : List Cell) : ℕ :=
  (datas.filter (fun d => d.mined && d.mine == MineKind.GEM)).length

/-- A partial-fields update, mirroring which fields
`MineGame.findByIdAndUpdate` can set (absent field = column untouched;
`payoutTxId`/`payoutError` can be set to a value or cleared to null). -/
structure MineUpdate where
  status : Option MStatus := none
  datas : Option (List Cell) := none
  payoutAmount : Option ℤ := none
  payoutTxId : Option (Option String) := none
  payoutStatus : Option PayStatus := none
  payoutError : Option (Option String) := none
  revealedGems : Option ℕ := none
deriving DecidableEq, Repr

/-- Row fields the cashout/claim flow reads back after updates, added to the
row model: `multiplier` and `revealedGems` of the mine_games table. -/
structure MineRow where
  publicKey : String
  status : MStatus
  mines : ℕ
  amount : ℕ
  datas : List Cell
  payoutAmount : Option ℤ
  payoutTxId : Option String
  payoutStatus : PayStatus
  payoutError : Option String
  revealedGems : Option ℕ
deriving DecidableEq, Repr

/-- Apply a `findByIdAndUpdate` partial update to a row. -/
def applyUpdate (g : MineRow) (u : MineUpdate) : MineRow :=
  { g with
    status := u.status.getD g.status
    datas := u.datas.getD g.datas
    payoutAmount := (u.payoutAmount.map some).getD g.payoutAmount
    payoutTxId := u.payoutTxId.getD g.payoutTxId
    payoutStatus := u.payoutStatus.getD g.payoutStatus
    payoutError := u.payoutError.getD g.payoutError
    revealedGems := (u.revealedGems.map some).getD g.revealedGems }

/-- One effect of a handler run, in execution order. -/
inductive MineEv
  | update (u : MineUpdate)
  | transfer (toPublicId : String) (amount : ℤ)
deriving DecidableEq, Repr

/-- Response essentials of the `/cashout` handler. -/
structure CashoutResp where
  code : ℕ
  payoutAmount : Option ℤ
  payoutTxId : Option String
deriving DecidableEq, Repr

/-- Result of a `/cashout` run: response, post-state row (`none` when the
lookup found nothing), effect trace. -/
structure CashoutResult where
  resp : CashoutResp
  game : Option MineRow
  events : List MineEv
deriving DecidableEq, Repr

/-- The `/cashout` handler of src/routes/mine.js (lines 844–996): validate the
requester, check ownership; if the game is no longer LIVE return 200 with the
recorded payout data (idempotent branch, no effects); otherwise compute the
payout, reject a zero payout, persist ENDED + amount, dispatch the transfer,
and on failure revert to LIVE with FAILED + error (the thrown error surfaces
as a 500), on success record SENT + txId. -/
def mineCashout (requester : String) (g? : Option MineRow)
    (tr : Except String String) : CashoutResult :=
  if isValidQubicPublicId requester = true then
    match g? with
    | none => ⟨⟨404, none, none⟩, none, []⟩
    | some g =>
        if isValidQubicPublicId g.publicKey = true then
          if g.publicKey = requester then
            if g.status = MStatus.LIVE then
              let gems := countRevealedGems g.datas
              let payout := calculateMinesPayout g.mines gems g.amount
              if payout.payoutAmount ≤ 0 then ⟨⟨400, none, none⟩, some g, []⟩
              else
                let u1 : MineUpdate :=
                  { status := some .ENDED, payoutAmount := some payout.payoutAmount,
                    revealedGems := some gems }
                let g1 := applyUpdate g u1
                match tr with
                | .error e =>
                    let u2 : MineUpdate :=
                      { status := some .LIVE, payoutStatus := some .FAILED,
                        payoutError := some (some e) }
                    ⟨⟨500, none, none⟩, some (applyUpdate g1 u2),
                      [.update u1, .transfer g.publicKey payout.payoutAmount, .update u2]⟩
                | .ok tx =>
                    let u2 : MineUpdate :=
                      { payoutTxId := some (some tx), payoutStatus := some .SENT,
                        payoutError := some none }
                    ⟨⟨200, some payout.payoutAmount, some tx⟩,
                      some (applyUpdate g1 u2),
                      [.update u1, .transfer g.publicKey payout.payoutAmount, .update u2]⟩
            else ⟨⟨200, g.payoutAmount, g.payoutTxId⟩, some g, []⟩
          else ⟨⟨403, none, none⟩, some g, []⟩
        else ⟨⟨500, none, none⟩, some g, []⟩
  else ⟨⟨400, none, none⟩, g?, []⟩

/-- Claim C3: once a cashout has settled (the session is no longer LIVE and
the payout amount and external transaction id are recorded), a second
`/cashout` call returns 200 with the same recorded amount and txId, emits no
effect at all (in particular no second transfer), and leaves the row
unchanged — the prior result, not an error. -/
theorem mine_cashout_idempotent (g : MineRow) (tx : String)
    (tr2 : Except String String)
    (hvalid : isValidQubicPublicId g.publicKey = true)
    (hlive : g.status = MStatus.LIVE)
    (hm1 : 1 ≤ g.mines) (hm24 : g.mines ≤ 24)
    (hg1 : 1 ≤ countRevealedGems g.datas)
    (hg2 : countRevealedGems g.datas ≤ 25 - g.mines)
    (hbet : 1 ≤ g.amount) :
    (mineCashout g.publicKey (some g) (.ok tx)).resp.code = 200 ∧
    (mineCashout g.publicKey (some g) (.ok tx)).resp.payoutAmount =
      some (calculateMinesPayout g.mines (countRevealedGems g.datas) g.amount).payoutAmount ∧
    (mineCashout g.publicKey (some g) (.ok tx)).resp.payoutTxId = some tx ∧
    (mineCashout g.publicKey (mineCashout g.publicKey (some g) (.ok tx)).game tr2).resp =
      ⟨200,
        some (calculateMinesPayout g.mines (countRevealedGems g.datas) g.amount).payoutAmount,
        some tx⟩ ∧
    (mineCashout g.publicKey (mineCashout g.publicKey (some g) (.ok tx)).game tr2).events = [] ∧
    (mineCashout g.publicKey (mineCashout g.publicKey (some g) (.ok tx)).game tr2).game =
      (mineCashout g.publicKey (some g) (.ok tx)).game := by
  have hpos := minesPayout_pos g.mines (countRevealedGems g.datas) g.amount hm1 hm24 hg1 hg2 hbet
  have hnpos : ¬ (calculateMinesPayout g.mines (countRevealedGems g.datas) g.amount).payoutAmount ≤ 0 := by
    omega
  simp [mineCashout, applyUpdate, hvalid, hlive, hnpos]

/-- Claim C6: for a cashout of a LIVE session with at least one revealed gem,
(1) the very first effect persists status ENDED together with the computed
payout amount, and the transfer is dispatched only after it; (2) if the
transfer fails, the session reverts to LIVE with payout status FAILED and the
error recorded (the handler rethrows, surfacing a 500); (3) if it succeeds,
payout status SENT and the transaction id are recorded, the session stays
ENDED, and any further cashout call performs no effect at all. -/
theorem mine_cashout_settlement (g : MineRow) (tr : Except String String)
    (hvalid : isValidQubicPublicId g.publicKey = true)
    (hlive : g.status = MStatus.LIVE)
    (hm1 : 1 ≤ g.mines) (hm24 : g.mines ≤ 24)
    (hg1 : 1 ≤ countRevealedGems g.datas)
    (hg2 : countRevealedGems g.datas ≤ 25 - g.mines)
    (hbet : 1 ≤ g.amount) :
    (mineCashout g.publicKey (some g) tr).events.take 2 =
      [MineEv.update
        { status := some MStatus.ENDED,
          payoutAmount :=
            some (calculateMinesPayout g.mines (countRevealedGems g.datas) g.amount).payoutAmount,
          revealedGems := some (countRevealedGems g.datas) },
       MineEv.transfer g.publicKey
         (calculateMinesPayout g.mines (countRevealedGems g.datas) g.amount).payoutAmount] ∧
    (∀ e, tr = .error e →
      (mineCashout g.publicKey (some g) tr).resp.code = 500 ∧
      (mineCashout g.publicKey (some g) tr).game.map MineRow.status =
        some MStatus.LIVE ∧
      (mineCashout g.publicKey (some g) tr).game.map MineRow.payoutStatus =
        some PayStatus.FAILED ∧
      (mineCashout g.publicKey (some g) tr).game.map MineRow.payoutError =
        some (some e) ∧
      (mineCashout g.publicKey (some g) tr).game.map MineRow.payoutAmount =
        some (some (calculateMinesPayout g.mines (countRevealedGems g.datas)
          g.amount).payoutAmount)) ∧
    (∀ tx, tr = .ok tx →
      (mineCashout g.publicKey (some g) tr).game.map MineRow.status =
        some MStatus.ENDED ∧
      (mineCashout g.publicKey (some g) tr).game.map MineRow.payoutStatus =
        some PayStatus.SENT ∧
      (mineCashout g.publicKey (some g) tr).game.map MineRow.payoutTxId =
        some (some tx) ∧
      (mineCashout g.publicKey (some g) tr).game.map MineRow.payoutAmount =
        some (some (calculateMinesPayout g.mines (countRevealedGems g.datas)
          g.amount).payoutAmount) ∧
      ∀ tr2,
        (mineCashout g.publicKey (mineCashout g.publicKey (some g) tr).game tr2).events =
          []) := by
  have hpos := minesPayout_pos g.mines (countRevealedGems g.datas) g.amount hm1 hm24 hg1 hg2 hbet
  have hnpos : ¬ (calculateMinesPayout g.mines (countRevealedGems g.datas) g.amount).payoutAmount ≤ 0 := by
    omega
  rcases tr with e | tx
  · refine ⟨?_, ?_, ?_⟩
    · simp [mineCashout, hvalid, hlive, hnpos]
    · intro e2 he2
      injection he2 with he2
      subst he2
      refine ⟨?_, ?_, ?_, ?_, ?_⟩ <;>
        simp [mineCashout, applyUpdate, hvalid, hlive, hnpos]
    · intro tx htx
      exact absurd htx (by simp)
  · refine ⟨?_, ?_, ?_⟩
    · simp [mineCashout, hvalid, hlive, hnpos]
    · intro e he
      exact absurd he (by simp)
    · intro tx2 htx2
      injection htx2 with htx2
      subst htx2
      refine ⟨?_, ?_, ?_, ?_, ?_⟩ <;>
        simp [mineCashout, applyUpdate, hvalid, hlive, hnpos]

/-- A concrete well-formed LIVE session for the witnesses: owner is a
60-character identity, 3 mines on cells 0–2, 5 revealed gems on cells 3–7,
stake 1000. -/
def sampleDatas : List Cell :=
  (List.range 25).map (fun i =>
    ⟨i, if i < 3 then .BOMB else .GEM, decide (3 ≤ i ∧ i < 8)⟩)

def sampleRow : MineRow :=
  { publicKey := String.mk (List.replicate 60 'A')
    status := .LIVE
    mines := 3
    amount := 1000
    datas := sampleDatas
    payoutAmount := none
    payoutTxId := none
    payoutStatus := .NONE
    payoutError := none
    revealedGems := none }

/-- Witness for claim C3's theorem at the concrete sample session. -/
theorem mine_cashout_idempotent_witness :
    (mineCashout sampleRow.publicKey (some sampleRow) (.ok "TX1")).resp.code = 200 :=
  (mine_cashout_idempotent sampleRow "TX1" (.ok "TX2") (by decide) (by decide)
    (by decide) (by decide) (by decide) (by decide) (by decide)).1

/-- Witness for claim C6's theorem at the concrete sample session, on the
transfer-failure branch. -/
theorem mine_cashout_settlement_witness :
    (mineCashout sampleRow.publicKey (some sampleRow) (.error "down")).resp.code = 500 :=
  ((mine_cashout_settlement sampleRow (.error "down") (by decide) (by decide)
    (by decide) (by decide) (by decide) (by decide) (by decide)).2.1 "down" rfl).1

/-- The error message of the `ReferenceError` the `/claim` handler runs into:
its transfer step invokes the identifier `payUserFromCasino`, which is
neither defined in src/routes/mine.js nor imported there (the module imports
`payFromCasinoToUser` from services/qubicPayout; `payUserFromCasino` lives
only in services/qubicTransfer.js, which mine.js never requires).  Node
throws this `ReferenceError` when the call is evaluated, inside the handler's
try block. -/
def claimRefError : String := "payUserFromCasino is not defined"

/-- Response essentials of the `/claim` handler. -/
structure ClaimResp where
  code : ℕ
  payoutTxId : Option String
deriving DecidableEq, Repr

/-- Result of a `/claim` run. -/
structure ClaimResult where
  resp : ClaimResp
  game : Option MineRow
  events : List MineEv
deriving DecidableEq, Repr

/-- The `/claim` handler of src/routes/mine.js (lines 1116–1215): validate the
requester, require a row with FAILED payout (the lookup filter), forbid
claims after a revealed bomb, require a positive recorded amount, persist
payout status PENDING, then invoke the transfer — which raises the
`ReferenceError` above before the transfer service can be reached, so the
catch branch persists FAILED with that error and answers 502.  The success
path (SENT + txId) is dead code and has no branch here. -/
def mineClaim (requester : String) (g? : Option MineRow) : ClaimResult :=
  if isValidQubicPublicId requester = true then
    match g? with
    | none => ⟨⟨404, none⟩, none, []⟩
    | some g =>
        if g.publicKey = requester then
          if g.datas.any (fun d => d.mined && d.mine == MineKind.BOMB) then
            ⟨⟨400, none⟩, some g, []⟩
          else
            match g.payoutAmount with
            | some a =>
                if 0 < a then
                  let u1 : MineUpdate :=
                    { payoutStatus := some .PENDING, payoutError := some none }
                  let u2 : MineUpdate :=
                    { payoutStatus := some .FAILED,
                      payoutError := some (some claimRefError) }
                  ⟨⟨502, none⟩, some (applyUpdate (applyUpdate g u1) u2),
                    [.update u1, .update u2]⟩
                else ⟨⟨400, none⟩, some g, []⟩
            | none => ⟨⟨400, none⟩, some g, []⟩
        else ⟨⟨403, none⟩, some g, []⟩
  else ⟨⟨400, none⟩, g?, []⟩

/-- Claim C8: every `/claim` call that passes the precondition checks (FAILED
payout, no revealed bomb, positive recorded amount, valid owner) ends at the
transfer step's `ReferenceError`: the response is a 502, the row's payout
status is FAILED again with the `ReferenceError` recorded, the recorded
amount is untouched, no external transfer is ever dispatched, and the SENT
state is unreachable through this endpoint. -/
theorem mine_claim_never_succeeds (requester : String) (g : MineRow) (a : ℤ)
    (hvalid : isValidQubicPublicId requester = true)
    (howner : g.publicKey = requester)
    (hfail : g.payoutStatus = PayStatus.FAILED)
    (hnobomb : g.datas.any (fun d => d.mined && d.mine == MineKind.BOMB) = false)
    (hamt : g.payoutAmount = some a) (hapos : 0 < a) :
    (mineClaim requester (some g)).resp.code = 502 ∧
    (mineClaim requester (some g)).game.map MineRow.payoutStatus =
      some PayStatus.FAILED ∧
    (mineClaim requester (some g)).game.map MineRow.payoutError =
      some (some claimRefError) ∧
    (mineClaim requester (some g)).game.map MineRow.payoutAmount = some (some a) ∧
    (∀ dest amt, MineEv.transfer dest amt ∉ (mineClaim requester (some g)).events) ∧
    (mineClaim requester (some g)).game.map MineRow.payoutStatus ≠
      some PayStatus.SENT := by
  refine ⟨?_, ?_, ?_, ?_, ?_, ?_⟩ <;>
    simp [mineClaim, applyUpdate, hvalid, howner, hnobomb, hamt, hapos]

/-- A concrete row with a FAILED payout for the C8 witness: the sample
session after a failed cashout (amount 1967 recorded, no bomb revealed). -/
def sampleFailedRow : MineRow :=
  { sampleRow with
    payoutAmount := some 1967
    payoutStatus := .FAILED
    payoutError := some "down" }

/-- Witness for claim C8's theorem at the concrete failed-payout session. -/
theorem mine_claim_never_succeeds_witness :
    (mineClaim sampleFailedRow.publicKey (some sampleFailedRow)).resp.code = 502 :=
  (mine_claim_never_succeeds sampleFailedRow.publicKey sampleFailedRow 1967
    (by decide) rfl rfl (by decide) rfl (by decide)).1

/-- Response essentials of the `/bet` handler. -/
structure BetResp where
  code : ℕ
deriving DecidableEq, Repr

/-- Result of a `/bet` run. -/
structure BetResult where
  resp : BetResp
  game : Option MineRow
  events : List MineEv
deriving DecidableEq, Repr

/-- The `/bet` reveal handler of src/routes/mine.js (lines 459–556): validate
the requester and the point, require a LIVE unexpired row (the lookup
filter), reject an unknown or already-revealed slot; then — before any
database write — the handler evaluates `recordMineMove(game.id, tileIndex,
isBomb)` where `tileIndex` is not defined anywhere in its scope (the handler
destructured `point`; `tileIndex` exists only in the separate `/pick` and
`/reveal` handlers), so Node raises a `ReferenceError`, the catch branch
answers 500, and neither the slot update nor the move insert nor the status
update is ever persisted. -/
def mineBet (requester : String) (point : ℕ) (g? : Option MineRow) : BetResult :=
  if isValidQubicPublicId requester = true then
    if point < 25 then
      match g? with
      | none => ⟨⟨404⟩, none, []⟩
      | some g =>
          match g.datas.find? (fun d => d.point == point) with
          | none => ⟨⟨400⟩, some g, []⟩
          | some c =>
              if c.mined then ⟨⟨400⟩, some g, []⟩
              else ⟨⟨500⟩, some g, []⟩
    else ⟨⟨400⟩, g?, []⟩
  else ⟨⟨400⟩, g?, []⟩

/-- Claim C10: every `/bet` request that names a valid, not-yet-revealed cell
of a LIVE session gets a 500 response, and no effect is persisted — the row
is returned unchanged and the effect trace is empty, so no reveal can ever be
recorded through this endpoint. -/
theorem mine_bet_unreachable (requester : String) (point : ℕ) (g : MineRow)
    (c : Cell)
    (hvalid : isValidQubicPublicId requester = true)
    (hpoint : point < 25)
    (hlive : g.status = MStatus.LIVE)
    (hfound : g.datas.find? (fun d => d.point == point) = some c)
    (hunmined : c.mined = false) :
    (mineBet requester point (some g)).resp.code = 500 ∧
    (mineBet requester point (some g)).events = [] ∧
    (mineBet requester point (some g)).game = some g := by
  refine ⟨?_, ?_, ?_⟩ <;>
    simp [mineBet, hvalid, hpoint, hfound, hunmined]

/-- Witness for claim C10's theorem: revealing cell 9 (an untouched GEM) of
the sample session. -/
theorem mine_bet_unreachable_witness :
    (mineBet sampleRow.publicKey 9 (some sampleRow)).resp.code = 500 :=
  (mine_bet_unreachable sampleRow.publicKey 9 sampleRow ⟨9, .GEM, false⟩
    (by decide) (by decide) rfl (by decide) rfl).1

/-! ## Crash round tick loop (src/sockets/crash.js, `startRound`/`endRound`)

The tick callback computes `payout = Math.floor(e^(k·elapsed)·100)/100` — a
2-decimal value, carried here in integer hundredths.  `ticks` is the sequence
of payout values the successive callback invocations observe (elapsed real
time is an input, so the sequence is arbitrary); a round ends at the first
tick whose payout reaches the crash point.  Within a tick the source first
auto-cashes every still-active player whose target the *unclamped* payout has
reached — at the current payout, not at the target — and only then checks the
crash condition; `endRound` marks the remaining `bet` players lost.  A failed
payout transfer in the auto-cashout only logs `payoutError` and changes
neither status nor winAmount, so the transfer outcome does not appear here.
Targets come from the payload as hundredths (`Number(target)/100`); the
JS float comparisons are faithful in hundredths (n ↦ fl(n/100) is strictly
monotone on the relevant range), but the paid amount
`Math.floor(betAmount * cashMult)` is a *double* product of the stake with
`cashMult = fl(payout/100)`, modelled exactly by `jsWin` below — it can be
one unit below the exact `floor(betAmount · payout / 100)`. -/

inductive CPStatus
  | bet
  | cashedout
  | lost
deriving DecidableEq, Repr

structure CrashPlayer where
  publicId : String
  betAmount : ℕ
  target : ℕ
  status : CPStatus
  winAmount : ℕ
  stoppedAt : Option ℕ
deriving DecidableEq, Repr

/-- `Math.floor(betAmount * cashMult)` in binary64: the stake (an exactly
representable integer) times the double `cashMult = fl(m/100)` the 2-decimal
tick multiplier really is, rounded to 53 bits and floored. -/
def jsWin (bet m : ℕ) : ℕ :=
  let d := fl53 m 100
  (fl53 (bet * d.1) (2 ^ d.2)).1 >>> (fl53 (bet * d.1) (2 ^ d.2)).2

/-- The auto-cashout a single tick applies to a single player (the body of the
`for (const p of players)` loop): fires for a still-`bet` player with a truthy
target the payout has reached, cashing out at the tick's payout. -/
def tickCashOne (payout : ℕ) (p : CrashPlayer) : CrashPlayer :=
  if p.status = CPStatus.bet ∧ p.target ≠ 0 ∧ p.target ≤ payout then
    { p with status := .cashedout, stoppedAt := some payout,
             winAmount := jsWin p.betAmount payout }
  else p

/-- `endRound`'s marking of the remaining active players as lost. -/
def markLost (p : CrashPlayer) : CrashPlayer :=
  if p.status = CPStatus.bet then { p with status := .lost } else p

/-- The round's tick loop over the observed payout sequence: each tick first
auto-cashes (at the unclamped payout), then ends the round if the payout has
reached the crash point. -/
def crashTickLoop (crashPoint : ℕ) : List ℕ → List CrashPlayer → List CrashPlayer
  | [], ps => ps
  | t :: rest, ps =>
      let ps2 := ps.map (tickCashOne t)
      if crashPoint ≤ t then ps2.map markLost
      else crashTickLoop crashPoint rest ps2

/-- The tick loop acts on each player independently; this is its per-player
restriction. -/
def runPlayer (crashPoint : ℕ) : List ℕ → CrashPlayer → CrashPlayer
  | [], p => p
  | t :: rest, p =>
      let p2 := tickCashOne t p
      if crashPoint ≤ t then markLost p2
      else runPlayer crashPoint rest p2

/-- The prefix of the tick sequence a round actually runs: up to and including
the first tick reaching the crash point (`none` if the sequence never
reaches it, i.e. the round has not ended). -/
def ticksUntilCrash (crashPoint : ℕ) : List ℕ → Option (List ℕ)
  | [] => none
  | t :: rest =>
      if crashPoint ≤ t then some [t]
      else (ticksUntilCrash crashPoint rest).map (t :: ·)

/-- The tick loop is the pointwise action of `runPlayer`. -/
theorem crashTickLoop_eq_map (cp : ℕ) (ts : List ℕ) (ps : List CrashPlayer) :
    crashTickLoop cp ts ps = ps.map (runPlayer cp ts) := by
  induction ts generalizing ps with
  | nil => simp [crashTickLoop, runPlayer]
  | cons t rest ih =>
      by_cases h : cp ≤ t
      · simp [crashTickLoop, runPlayer, h, List.map_map]
      · simp [crashTickLoop, runPlayer, h, ih, List.map_map]

/-- A player no longer `bet` is never touched again by the loop. -/
theorem runPlayer_frozen (cp : ℕ) (ts : List ℕ) (p : CrashPlayer)
    (h : p.status ≠ CPStatus.bet) : runPlayer cp ts p = p := by
  induction ts with
  | nil => rfl
  | cons t rest ih =>
      have h1 : tickCashOne t p = p := by
        unfold tickCashOne
        rw [if_neg]
        intro hc
        exact h hc.1
      have h2 : markLost p = p := by
        unfold markLost
        rw [if_neg h]
      unfold runPlayer
      rw [h1]
      by_cases hct : cp ≤ t
      · rw [if_pos hct, h2]
      · rw [if_neg hct, ih]

/-- Per-player outcome over the ticks a round actually runs. -/
theorem runPlayer_outcome (cp : ℕ) (ticks ts : List ℕ) (p : CrashPlayer)
    (hts : ticksUntilCrash cp ticks = some ts)
    (hbet : p.status = CPStatus.bet) (ht0 : p.target ≠ 0) (hw : p.winAmount = 0) :
    (match ts.find? (fun t => decide (p.target ≤ t)) with
     | some m =>
         (runPlayer cp ticks p).status = CPStatus.cashedout ∧
         (runPlayer cp ticks p).winAmount = jsWin p.betAmount m ∧
         (runPlayer cp ticks p).stoppedAt = some m
     | none =>
         (runPlayer cp ticks p).status = CPStatus.lost ∧
         (runPlayer cp ticks p).winAmount = 0) ∧
    (p.target ≤ cp → (ts.find? (fun t => decide (p.target ≤ t))).isSome = true) := by
  induction ticks generalizing ts with
  | nil => simp [ticksUntilCrash] at hts
  | cons t rest ih =>
      unfold ticksUntilCrash at hts
      by_cases hct : cp ≤ t
      · rw [if_pos hct] at hts
        injection hts with hts
        subst hts
        by_cases hpt : p.target ≤ t
        · have hfire : tickCashOne t p =
              { p with status := .cashedout, stoppedAt := some t,
                       winAmount := jsWin p.betAmount t } := by
            unfold tickCashOne
            rw [if_pos ⟨hbet, ht0, hpt⟩]
          have hrun : runPlayer cp (t :: rest) p =
              { p with status := .cashedout, stoppedAt := some t,
                       winAmount := jsWin p.betAmount t } := by
            simp only [runPlayer]
            rw [hfire, if_pos hct]
            unfold markLost
            rw [if_neg (by simp)]
          constructor
          · have hfind : [t].find? (fun u => decide (p.target ≤ u)) = some t := by
              simp [List.find?, hpt]
            rw [hfind, hrun]
            exact ⟨rfl, rfl, rfl⟩
          · intro _
            simp [List.find?, hpt]
        · have hskip : tickCashOne t p = p := by
            unfold tickCashOne
            rw [if_neg]
            intro hc
            exact hpt hc.2.2
          have hrun : runPlayer cp (t :: rest) p = markLost p := by
            simp only [runPlayer]
            rw [hskip, if_pos hct]
          constructor
          · have hfind : [t].find? (fun u => decide (p.target ≤ u)) = none := by
              simp [List.find?, hpt]
            rw [hfind, hrun]
            unfold markLost
            rw [if_pos hbet]
            exact ⟨rfl, hw⟩
          · intro hcp
            exact absurd (le_trans hcp hct) hpt
      · rw [if_neg hct] at hts
        rcases Option.map_eq_some'.mp hts with ⟨ts2, hts2, hcons⟩
        subst hcons
        by_cases hpt : p.target ≤ t
        · have hfire : tickCashOne t p =
              { p with status := .cashedout, stoppedAt := some t,
                       winAmount := jsWin p.betAmount t } := by
            unfold tickCashOne
            rw [if_pos ⟨hbet, ht0, hpt⟩]
          have hrun : runPlayer cp (t :: rest) p =
              { p with status := .cashedout, stoppedAt := some t,
                       winAmount := jsWin p.betAmount t } := by
            simp only [runPlayer]
            rw [hfire, if_neg hct]
            exact runPlayer_frozen cp rest _ (by simp)
          constructor
          · have hfind : (t :: ts2).find? (fun u => decide (p.target ≤ u)) = some t := by
              simp [List.find?, hpt]
            rw [hfind, hrun]
            exact ⟨rfl, rfl, rfl⟩
          · intro _
            simp [List.find?, hpt]
        · have hskip : tickCashOne t p = p := by
            unfold tickCashOne
            rw [if_neg]
            intro hc
            exact hpt hc.2.2
          have hrun : runPlayer cp (t :: rest) p = runPlayer cp rest p := by
            simp only [runPlayer]
            rw [hskip, if_neg hct]
          have hfind : (t :: ts2).find? (fun u => decide (p.target ≤ u)) =
              ts2.find? (fun u => decide (p.target ≤ u)) := by
            simp [List.find?, hpt]
          rw [hrun, hfind]
          exact ih ts2 hts2

/-- Claim C4 (counterexample): a round with crash point 1.50 whose tick loop
observes payouts 1.12 then 1.53 (the final tick overshooting the crash
point).  Player P1 (stake 100, target 1.13 ≤ crash point) is auto-cashed at
1.53 and paid 153 — not floor(100·1.13) = 113 as claimed; player P2 (stake
100, target 1.51 > crash point) is *also* auto-cashed (153), not marked lost
with payout 0, because the auto-cashout runs on the unclamped payout before
the crash check.  And even when the tick does not overshoot, the double
product underpays the claim's exact floor: in a round crashing at 1.13 whose
only tick is 1.13, player P3 (stake 100, target 1.13) is paid
`Math.floor(100 · 1.13) = 112`, not floor(100·113/100) = 113, because the
double closest to 1.13 is just below it. -/
theorem crash_round_claim_counterexample :
    crashTickLoop 150 [112, 153]
        [⟨"P1", 100, 113, .bet, 0, none⟩, ⟨"P2", 100, 151, .bet, 0, none⟩] =
      [⟨"P1", 100, 113, .cashedout, 153, some 153⟩,
       ⟨"P2", 100, 151, .cashedout, 153, some 153⟩] ∧
    (113 : ℕ) ≤ 150 ∧ 100 * 113 / 100 = 113 ∧ (153 : ℕ) ≠ 113 ∧
    (150 : ℕ) < 151 ∧ CPStatus.cashedout ≠ CPStatus.lost ∧
    crashTickLoop 113 [113] [⟨"P3", 100, 113, .bet, 0, none⟩] =
      [⟨"P3", 100, 113, .cashedout, 112, some 113⟩] ∧
    (112 : ℕ) ≠ 100 * 113 / 100 := by
  refine ⟨by decide, by decide, by decide, by decide, by decide, by decide,
    by decide, by decide⟩

/-- Claim C4 (amended): in a round that ends (the tick sequence reaches the
crash point), a joined participant still at `bet` ends *cashed out* exactly
when some tick of the run reaches their target — paid the binary64 product
`Math.floor(stake · fl(m/100))` (= `jsWin stake m`, which can be one below
the exact `floor(stake · m / 100)`) where `m` is that first such tick's
payout (`m` is only guaranteed ≥ target, not equal to it) — and ends *lost*
with payout 0 otherwise.  A target ≤ the crash point always ends cashed out (the final
tick's payout reaches the crash point, hence the target); a target above the
crash point ends lost unless the final overshooting tick also reached it. -/
theorem crash_round_outcome (cp : ℕ) (ticks ts : List ℕ)
    (ps : List CrashPlayer) (p : CrashPlayer)
    (hts : ticksUntilCrash cp ticks = some ts) (hp : p ∈ ps)
    (hbet : p.status = CPStatus.bet) (ht0 : p.target ≠ 0)
    (hw : p.winAmount = 0) :
    crashTickLoop cp ticks ps = ps.map (runPlayer cp ticks) ∧
    runPlayer cp ticks p ∈ crashTickLoop cp ticks ps ∧
    (match ts.find? (fun t => decide (p.target ≤ t)) with
     | some m =>
         (runPlayer cp ticks p).status = CPStatus.cashedout ∧
         (runPlayer cp ticks p).winAmount = jsWin p.betAmount m ∧
         (runPlayer cp ticks p).stoppedAt = some m
     | none =>
         (runPlayer cp ticks p).status = CPStatus.lost ∧
         (runPlayer cp ticks p).winAmount = 0) ∧
    (p.target ≤ cp → (ts.find? (fun t => decide (p.target ≤ t))).isSome = true) := by
  have hcore := runPlayer_outcome cp ticks ts p hts hbet ht0 hw
  refine ⟨crashTickLoop_eq_map cp ticks ps, ?_, hcore.1, hcore.2⟩
  rw [crashTickLoop_eq_map]
  exact List.mem_map_of_mem _ hp

/-- Witness for claim C4's amended theorem at the counterexample round. -/
theorem crash_round_outcome_witness :
    crashTickLoop 150 [112, 153]
        [⟨"P1", 100, 113, .bet, 0, none⟩, ⟨"P2", 100, 151, .bet, 0, none⟩] =
      [⟨"P1", 100, 113, CPStatus.bet, 0, none⟩,
       ⟨"P2", 100, 151, CPStatus.bet, 0, none⟩].map (runPlayer 150 [112, 153]) :=
  (crash_round_outcome 150 [112, 153] [112, 153]
    [⟨"P1", 100, 113, .bet, 0, none⟩, ⟨"P2", 100, 151, .bet, 0, none⟩]
    ⟨"P1", 100, 113, .bet, 0, none⟩
    (by decide) (by simp) rfl (by decide) rfl).1

/-! ## Crash `join-game` handler (src/sockets/crash.js, lines 346–430)

The handler validates the payload and rejects duplicates by searching
`currentGame.players` only; finished rounds (the module's `history` buffer
and the persisted rows) are never consulted, and the module keeps no global
set of consumed transaction ids (unlike src/sockets/slide.js, whose
`usedTxIds` set is global).  `priorRounds` carries those finished rounds in
the embedding to make that explicit.  The payload's `target` is in hundredths
(the handler divides by 100 and rejects `target < 1.01`, i.e. hundredths
below 101); wallet ids pass only through `normalizeWalletId` (trim), so the
only wallet requirement is being nonempty. -/

structure CrashBet where
  publicId : String
  txId : String
  target : ℕ
  betAmount : ℕ
deriving DecidableEq, Repr

inductive CrashPhase
  | NotStarted
  | Starting
  | InProgress
  | Over
  | Blocking
  | Refunded
deriving DecidableEq, Repr

structure CrashRound where
  status : CrashPhase
  players : List CrashBet
deriving DecidableEq, Repr

structure JoinReq where
  publicId : String
  txId : String
  target : ℕ
  betAmount : ℕ
deriving DecidableEq, Repr

/-- The handler's rejection reasons, in source order. -/
inductive JoinReject
  | notStarting
  | missingTxId
  | invalidTarget
  | invalidBet
  | noWallet
  | alreadyJoined
  | txAlreadyUsed
deriving DecidableEq, Repr

inductive JoinOutcome
  | accepted (p : CrashBet)
  | rejected (r : JoinReject)
deriving DecidableEq, Repr

/-- The `join-game` handler: every check reads only the current round. -/
def joinGame (priorRounds : List CrashRound) (cur : CrashRound)
    (req : JoinReq) : JoinOutcome :=
  if cur.status ≠ CrashPhase.Starting then .rejected .notStarting
  else if req.txId = "" then .rejected .missingTxId
  else if req.target < 101 then .rejected .invalidTarget
  else if req.betAmount = 0 then .rejected .invalidBet
  else if req.publicId = "" then .rejected .noWallet
  else if cur.players.any (fun p => p.publicId == req.publicId) then
    .rejected .alreadyJoined
  else if cur.players.any (fun p => p.txId == req.txId) then
    .rejected .txAlreadyUsed
  else .accepted ⟨req.publicId, req.txId, req.target, req.betAmount⟩

/-- A finished round whose participant consumed transaction id "T". -/
def finishedRound : CrashRound :=
  ⟨.Over, [⟨"PX", "T", 200, 50⟩]⟩

/-- Claim C5 (counterexample): transaction id "T" was consumed by a
participant of a finished prior round, yet a fresh STARTING round accepts a
join reusing "T" — the handler checks only the current round's players, so
the claimed system-wide rejection does not happen. -/
theorem crash_join_replay_counterexample :
    finishedRound.players.any (fun p => p.txId == "T") = true ∧
    joinGame [finishedRound] ⟨.Starting, []⟩ ⟨"P1", "T", 200, 100⟩ =
      .accepted ⟨"P1", "T", 200, 100⟩ := by
  refine ⟨by decide, by decide⟩

/-- Claim C5 (amended): a Crash join is rejected for a duplicate participant
or a duplicate transaction id *within the current round* only; a valid
request whose token was consumed by any prior round is accepted — the Crash
handler keeps no cross-round token registry. -/
theorem crash_join_current_round_only (priorRounds : List CrashRound)
    (cur : CrashRound) (req : JoinReq)
    (hstart : cur.status = CrashPhase.Starting)
    (htx : req.txId ≠ "") (htgt : 101 ≤ req.target) (hbet : 0 < req.betAmount)
    (hpid : req.publicId ≠ "")
    (hnodupP : cur.players.any (fun p => p.publicId == req.publicId) = false)
    (hnodupT : cur.players.any (fun p => p.txId == req.txId) = false)
    (hused : ∃ r ∈ priorRounds, r.players.any (fun p => p.txId == req.txId) = true) :
    joinGame priorRounds cur req =
      .accepted ⟨req.publicId, req.txId, req.target, req.betAmount⟩ := by
  have h1 : ¬ cur.status ≠ CrashPhase.Starting := by simp [hstart]
  have h2 : ¬ req.target < 101 := by omega
  have h3 : ¬ req.betAmount = 0 := by omega
  simp [joinGame, h1, htx, h2, h3, hpid, hnodupP, hnodupT]

/-- Witness for claim C5's amended theorem at the counterexample round. -/
theorem crash_join_current_round_only_witness :
    joinGame [finishedRound] ⟨CrashPhase.Starting, []⟩ ⟨"P1", "T", 200, 100⟩ =
      .accepted ⟨"P1", "T", 200, 100⟩ :=
  crash_join_current_round_only [finishedRound] ⟨.Starting, []⟩
    ⟨"P1", "T", 200, 100⟩ rfl (by decide) (by decide) (by decide) (by decide)
    (by decide) (by decide) ⟨finishedRound, by simp, by decide⟩

/-! ## Slide settlement loop (src/sockets/slide.js, `startGameCycle`,
lines 197–226)

After the PLAYING phase the loop settles each `playing` participant: if the
round's crash point (stored as a 2-decimal value, carried here in integer
hundredths) reached the participant's integer target, the win is
`Math.floor(betAmount * target)` (exact — both are integers) and the
transfer is attempted; on transfer success the participant becomes `won`
with the amount and transaction id; on transfer *failure* the participant is
recorded as `lost` with `winAmount = 0` — nothing else is written: the
player record has no payout-status or error field, and the loop runs once
per round, so the failed obligation leaves no trace and no retry path. -/

inductive SlideStatus
  | playing
  | won
  | lost
deriving DecidableEq, Repr

structure SlidePlayer where
  publicId : String
  betAmount : ℕ
  target : ℕ
  status : SlideStatus
  winAmount : ℕ
  payoutTxId : Option String
deriving DecidableEq, Repr

/-- Settlement of one participant (`tr` is the transfer's outcome; it is only
consulted when a positive win is due). -/
def settleSlidePlayer (cp100 : ℕ) (tr : Except String String)
    (p : SlidePlayer) : SlidePlayer :=
  if p.status = SlideStatus.playing ∧ p.publicId ≠ "" then
    if 100 * p.target ≤ cp100 then
      if 0 < p.betAmount * p.target then
        match tr with
        | .ok tx => { p with status := .won, winAmount := p.betAmount * p.target,
                             payoutTxId := some tx }
        | .error _ => { p with status := .lost, winAmount := 0 }
      else { p with status := .lost, winAmount := 0 }
    else { p with status := .lost, winAmount := 0 }
  else p

/-- The settlement loop over the round's participants, each with their own
transfer outcome. -/
def settleSlideRound (cp100 : ℕ)
    (ps : List (SlidePlayer × Except String String)) : List SlidePlayer :=
  ps.map (fun x => settleSlidePlayer cp100 x.2 x.1)

/-- Claim C9: a Slide participant whose target the crash point reached but
whose transfer fails is recorded exactly as a loser — status `lost`,
`winAmount` 0, transaction id unchanged — indistinguishable from a
participant whose target was never reached (there is no FAILED status, no
recorded error, and no retry), and that is what the round loop persists. -/
theorem slide_payout_failure_dropped (cp100 : ℕ) (p : SlidePlayer) (e : String)
    (hplay : p.status = SlideStatus.playing) (hpid : p.publicId ≠ "")
    (hwin : 100 * p.target ≤ cp100) (hpos : 0 < p.betAmount * p.target) :
    settleSlidePlayer cp100 (.error e) p =
      { p with status := SlideStatus.lost, winAmount := 0 } ∧
    (settleSlidePlayer cp100 (.error e) p).payoutTxId = p.payoutTxId ∧
    (∀ tr2, settleSlidePlayer cp100 (.error e) p =
      settleSlidePlayer (100 * p.target - 1) tr2 p) ∧
    (∀ ps, (p, Except.error e) ∈ ps →
      ({ p with status := SlideStatus.lost, winAmount := 0 } : SlidePlayer) ∈
        settleSlideRound cp100 ps) := by
  have hmain : settleSlidePlayer cp100 (.error e) p =
      { p with status := SlideStatus.lost, winAmount := 0 } := by
    unfold settleSlidePlayer
    rw [if_pos ⟨hplay, hpid⟩, if_pos hwin, if_pos hpos]
  refine ⟨hmain, by rw [hmain], ?_, ?_⟩
  · intro tr2
    rw [hmain]
    unfold settleSlidePlayer
    have ht : 0 < p.target := Nat.pos_of_ne_zero (fun h => by simp [h] at hpos)
    have hnot : ¬ 100 * p.target ≤ 100 * p.target - 1 := by omega
    rw [if_pos ⟨hplay, hpid⟩, if_neg hnot]
  · intro ps hp
    rw [← hmain]
    exact List.mem_map_of_mem _ hp

/-- Witness for claim C9's theorem: stake 100, target 2×, crash point 2.50,
transfer down. -/
theorem slide_payout_failure_dropped_witness :
    settleSlidePlayer 250 (.error "down") ⟨"PW", 100, 2, .playing, 0, none⟩ =
      ⟨"PW", 100, 2, SlideStatus.lost, 0, none⟩ :=
  (slide_payout_failure_dropped 250 ⟨"PW", 100, 2, .playing, 0, none⟩ "down"
    rfl (by decide) (by decide) (by decide)).1
